import Mathlib

/-!
Verification development for `src/model_deployment/app.py` (Jetson YOLO
Streamlit demo).  The Python code is shallowly embedded: wall-clock instants
and durations become rationals, strings become lists of characters, the
tegrastats regular expression becomes an executable backtracking matcher,
and the stateful monitor/loop code becomes explicit state passing.
-/

/-! ## Character classes of the tegrastats pattern (TEGRAPATTERN, app.py:36-43) -/

/-- Python regex `\d` on the ASCII input tegrastats emits. -/
def isDigitC (c : Char) : Bool := '0' ≤ c && c ≤ '9'

/-- Python regex `\s` (ASCII whitespace). -/
def isSpaceC (c : Char) : Bool :=
  c = ' ' || c = '\t' || c = '\n' || c = '\r' || c = '\x0b' || c = '\x0c'

/-- Character class `[\d\.]` used by the `gpu_temp` group. -/
def isTempC (c : Char) : Bool := isDigitC c || c = '.'

/-- Anchor literal `RAM` of TEGRAPATTERN, lowercase (re.IGNORECASE). -/
def ramTok : List Char := ['r', 'a', 'm']

/-- Anchor literal `CPU` of TEGRAPATTERN, lowercase. -/
def cpuTok : List Char := ['c', 'p', 'u']

/-- Anchor literal `EMC` of TEGRAPATTERN, lowercase. -/
def emcTok : List Char := ['e', 'm', 'c']

/-- Anchor literal `FREQ` of TEGRAPATTERN, lowercase. -/
def freqTok : List Char := ['f', 'r', 'e', 'q']

/-- Anchor literal `GR3D` of TEGRAPATTERN, lowercase. -/
def gr3dTok : List Char := ['g', 'r', '3', 'd']

/-- Anchor literal `GPU@` of TEGRAPATTERN, lowercase. -/
def gpuTok : List Char := ['g', 'p', 'u', '@']

/-! ## TEGRAPATTERN matcher (app.py:36-43)

The pattern is
`RAM\s+(\d+)\/(\d+)MB.*?CPU\s+\[(.+?)\].*?EMC[_ ]FREQ\s+(\d+)%@(\d+).*?GR3D[_ ]FREQ\s+(\d+)%@(\d+).*?.*?GPU@([\d\.]+)C`
with `re.IGNORECASE`, used through `re.search`.  Each greedy piece
(`\s+`, `\d+`, `[\d\.]+`) is followed in the pattern by a literal outside its
own character class, so maximal munch reproduces the backtracking semantics
exactly; the lazy pieces (`.*?`, `(.+?)`) and the search scan are embedded
with explicit shortest-first backtracking. -/

/-- Case-insensitive literal match; the pattern chars are given lowercase.
Returns the rest of the input on success. -/
def litMatch : List Char → List Char → Option (List Char)
  | [], s => some s
  | _ :: _, [] => none
  | p :: ps, c :: cs => if c.toLower = p then litMatch ps cs else none

/-- `\s+` (its follower in the pattern is never a space, so maximal munch). -/
def spaces1 : List Char → Option (List Char)
  | [] => none
  | c :: cs => if isSpaceC c then some (cs.dropWhile isSpaceC) else none

/-- A capturing `(\d+)` (its follower is never a digit).  Returns the group
and the rest. -/
def digits1 : List Char → Option (List Char × List Char)
  | [] => none
  | c :: cs =>
    if isDigitC c then some (c :: cs.takeWhile isDigitC, cs.dropWhile isDigitC)
    else none

/-- The character class `[_ ]` separating `EMC`/`GR3D` from `FREQ`. -/
def sepUS : List Char → Option (List Char)
  | [] => none
  | c :: cs => if c = '_' || c = ' ' then some cs else none

/-- `(?P<gpu_temp>[\d\.]+)C`: greedy class then the literal `C`, which lies
outside the class, so maximal munch.  Returns the group and the rest. -/
def tempGroup : List Char → Option (List Char × List Char)
  | [] => none
  | c :: cs =>
    if isTempC c then
      match cs.dropWhile isTempC with
      | d :: rest =>
        if d.toLower = 'c' then some (c :: cs.takeWhile isTempC, rest) else none
      | [] => none
    else none

/-- Lazy gap `.*?` (`.` does not cross a newline): try the continuation at
each position, shortest gap first, exactly as the backtracking engine does. -/
def scanGap {α : Type} (f : List Char → Option α) : List Char → Option α
  | [] => f []
  | c :: cs =>
    match f (c :: cs) with
    | some r => some r
    | none => if c = '\n' then none else scanGap f cs

/-- The start-position scan of `re.search` (start positions may lie past a
newline, unlike a `.*?` gap). -/
def scanStart {α : Type} (f : List Char → Option α) : List Char → Option α
  | [] => f []
  | c :: cs =>
    match f (c :: cs) with
    | some r => some r
    | none => scanStart f cs

/-- The named groups of TEGRAPATTERN from `EMC` onwards. -/
structure TailFields where
  emc_pct : List Char
  emc_mhz : List Char
  gr3d_pct : List Char
  gr3d_mhz : List Char
  gpu_temp : List Char
deriving DecidableEq

/-- `GPU@(?P<gpu_temp>[\d\.]+)C`. -/
def gpuAnchor (s : List Char) : Option (List Char) :=
  (litMatch gpuTok s).bind fun r1 =>
  (tempGroup r1).map fun gr => gr.1

/-- `.*?.*?GPU@...` — the two adjacent lazy gaps compose into one scan. -/
def gpuScan : List Char → Option (List Char) := scanGap gpuAnchor

/-- `GR3D[_ ]FREQ\s+(?P<gr3d_pct>\d+)%@(?P<gr3d_mhz>\d+)` then the tail. -/
def gr3dAnchor (s : List Char) : Option (List Char × List Char × List Char) :=
  (litMatch gr3dTok s).bind fun r1 =>
  (sepUS r1).bind fun r2 =>
  (litMatch freqTok r2).bind fun r3 =>
  (spaces1 r3).bind fun r4 =>
  (digits1 r4).bind fun p5 =>
  (litMatch ['%', '@'] p5.2).bind fun r6 =>
  (digits1 r6).bind fun m7 =>
  (gpuScan m7.2).map fun temp => (p5.1, m7.1, temp)

/-- `.*?GR3D...`. -/
def gr3dScan : List Char → Option (List Char × List Char × List Char) :=
  scanGap gr3dAnchor

/-- `EMC[_ ]FREQ\s+(?P<emc_pct>\d+)%@(?P<emc_mhz>\d+)` then the tail. -/
def emcAnchor (s : List Char) : Option TailFields :=
  (litMatch emcTok s).bind fun r1 =>
  (sepUS r1).bind fun r2 =>
  (litMatch freqTok r2).bind fun r3 =>
  (spaces1 r3).bind fun r4 =>
  (digits1 r4).bind fun p5 =>
  (litMatch ['%', '@'] p5.2).bind fun r6 =>
  (digits1 r6).bind fun m7 =>
  (gr3dScan m7.2).map fun g => ⟨p5.1, m7.1, g.1, g.2.1, g.2.2⟩

/-- `.*?EMC...`. -/
def emcScan : List Char → Option TailFields := scanGap emcAnchor

/-- The lazy capture `(?P<cpu>.+?)\]` followed by `.*?EMC...`: the capture
grows one (non-newline) character at a time; whenever the next input char is
`]` the continuation is tried, and on its failure the `]` is absorbed into
the capture — shortest-first, as the engine backtracks. -/
def cpuBody : List Char → List Char → Option (List Char × TailFields)
  | _, [] => none
  | revAcc, c :: cs =>
    if c = '\n' then none
    else
      match cs with
      | ']' :: rest =>
        match emcScan rest with
        | some tf => some ((c :: revAcc).reverse, tf)
        | none => cpuBody (c :: revAcc) cs
      | _ => cpuBody (c :: revAcc) cs

/-- `CPU\s+\[(?P<cpu>.+?)\]...`. -/
def cpuAnchor (s : List Char) : Option (List Char × TailFields) :=
  (litMatch cpuTok s).bind fun r1 =>
  (spaces1 r1).bind fun r2 =>
  (litMatch ['['] r2).bind fun r3 =>
  cpuBody [] r3

/-- `.*?CPU...`. -/
def cpuScan : List Char → Option (List Char × TailFields) := scanGap cpuAnchor

/-- The full group dictionary of a TEGRAPATTERN match (all groups are on the
single alternation-free path of the pattern, so a match always carries every
group). -/
structure TelemetrySample where
  ram_used : List Char
  ram_total : List Char
  cpu : List Char
  emc_pct : List Char
  emc_mhz : List Char
  gr3d_pct : List Char
  gr3d_mhz : List Char
  gpu_temp : List Char
deriving DecidableEq

/-- `RAM\s+(?P<ram_used>\d+)\/(?P<ram_total>\d+)MB` then the rest of the
pattern. -/
def ramAnchor (s : List Char) : Option TelemetrySample :=
  (litMatch ramTok s).bind fun r1 =>
  (spaces1 r1).bind fun r2 =>
  (digits1 r2).bind fun u3 =>
  (litMatch ['/'] u3.2).bind fun r4 =>
  (digits1 r4).bind fun t5 =>
  (litMatch ['m', 'b'] t5.2).bind fun r6 =>
  (cpuScan r6).map fun ct =>
    ⟨u3.1, t5.1, ct.1, ct.2.emc_pct, ct.2.emc_mhz, ct.2.gr3d_pct, ct.2.gr3d_mhz, ct.2.gpu_temp⟩

/-- `TEGRAPATTERN.search(line)` (app.py:139): try the pattern at every start
position, leftmost first. -/
def tegraSearch (line : List Char) : Option TelemetrySample := scanStart ramAnchor line

/-- Every field of the sample carries a non-empty captured string. -/
def populatedSample (t : TelemetrySample) : Prop :=
  t.ram_used ≠ [] ∧ t.ram_total ≠ [] ∧ t.cpu ≠ [] ∧ t.emc_pct ≠ [] ∧
  t.emc_mhz ≠ [] ∧ t.gr3d_pct ≠ [] ∧ t.gr3d_mhz ≠ [] ∧ t.gpu_temp ≠ []

/-- `p` occurs, lowercased, somewhere inside the lowercased line: the
formal reading of "the field-group's anchor is present in the line". -/
def lcInfix (p l : List Char) : Prop :=
  ∃ v w, l.map Char.toLower = v ++ p ++ w

/-- A suffix `t` of `l` starts (case-insensitively) with `p`; intermediate
notion used while chasing the matcher through the line. -/
def anchoredAt (p l : List Char) : Prop :=
  ∃ t u r, t <:+ l ∧ t = u ++ r ∧ u.map Char.toLower = p

/-- A concrete tegrastats-style line, with the separator after `EMC` and
after `GR3D` (underscore or space) left as parameters. -/
def tLine (s1 s2 : Char) : List Char :=
  "RAM 3162/7620MB (lfb 5x4MB) SWAP 0/3810MB CPU [14%@729,11%@729,13%@729,13%@729] EMC".data
    ++ [s1] ++ "FREQ 2%@3199 GR3D".data ++ [s2]
    ++ "FREQ 0%@624 CV0@-25C GPU@45.593C".data

/-- The sample TEGRAPATTERN extracts from `tLine`. -/
def tSample : TelemetrySample :=
  ⟨"3162".data, "7620".data, "14%@729,11%@729,13%@729,13%@729".data,
   "2".data, "3199".data, "0".data, "624".data, "45.593".data⟩

/-- A line whose `GR3D` field-group is missing entirely. -/
def tLineNoGr3d : List Char :=
  "RAM 3162/7620MB (lfb 5x4MB) CPU [14%@729,11%@729] EMC_FREQ 2%@3199 CV0@-25C GPU@45.593C".data

/-! ## The capacity-one freshness slot (queue.Queue(maxsize=1), app.py:118,141-146,165-176) -/

/-- `Queue.get_nowait` on a capacity-one queue: `.error` models the raised
`queue.Empty`. -/
def Queue.getNowait {α : Type} (s : Option α) : Except Unit (α × Option α) :=
  match s with
  | some v => Except.ok (v, none)
  | none => Except.error ()

/-- `Queue.put_nowait` on a capacity-one queue: `.error` models the raised
`queue.Full`. -/
def Queue.putNowait {α : Type} (s : Option α) (x : α) : Except Unit (Option α) :=
  match s with
  | none => Except.ok (some x)
  | some _ => Except.error ()

/-- The writer of `MetricsMonitor._reader` (app.py:141-146): try
`get_nowait` swallowing `queue.Empty`, then `put_nowait`. -/
def MetricsMonitor.slotWrite {α : Type} (s : Option α) (x : α) : Except Unit (Option α) :=
  Queue.putNowait
    (match Queue.getNowait s with
     | Except.ok (_, s1) => s1
     | Except.error _ => s) x

/-- The reader of `MetricsMonitor.latest` (app.py:172-175): `get_nowait`
with `queue.Empty` mapped to `None`.  Returns (result, new slot state). -/
def MetricsMonitor.slotRead {α : Type} (s : Option α) : Option α × Option α :=
  match Queue.getNowait s with
  | Except.ok (v, s1) => (some v, s1)
  | Except.error _ => (none, s)

/-! ## MetricsMonitor state (app.py:107-176) -/

/-- Mutable state of a `MetricsMonitor`: `thread` is `none` before any
`start()` and `some alive` afterwards; `slot` is the capacity-one queue;
`lastRaw` is `_last_raw`. -/
structure MonState where
  thread : Option Bool
  slot : Option TelemetrySample
  lastRaw : List Char
deriving DecidableEq

/-- Freshly constructed monitor (app.py:110-121): no thread, empty queue,
`_last_raw = ""`. -/
def MonState.init : MonState := ⟨none, none, []⟩

/-- `MetricsMonitor.start` (app.py:151-155): launch a reader thread unless
one is alive.  The returned flag records whether a new thread was launched.
Thread creation itself consults nothing else and raises nothing; the
tegrastats lookup happens inside `_reader`, whose body is wrapped in a
catch-all. -/
def MetricsMonitor.start (s : MonState) : MonState × Bool :=
  if s.thread = some true then (s, false)
  else (⟨some true, s.slot, s.lastRaw⟩, true)

/-- Python `line.strip()`. -/
def stripChars (l : List Char) : List Char :=
  ((l.dropWhile isSpaceC).reverse.dropWhile isSpaceC).reverse

/-- One iteration of the `for line in self._proc.stdout` body of
`MetricsMonitor._reader` (app.py:137-146): record the raw line, parse it,
and on a match write the sample through the evict-then-put slot writer.
The `.error` branch of the writer is unreachable (the eviction guarantees
the put succeeds); were it reached, the catch-all of `_reader` would
swallow it. -/
def MetricsMonitor.processLine (s : MonState) (line : List Char) : MonState :=
  let s1 : MonState := ⟨s.thread, s.slot, stripChars line⟩
  match tegraSearch line with
  | some d =>
    match MetricsMonitor.slotWrite s1.slot d with
    | Except.ok q => ⟨s1.thread, q, s1.lastRaw⟩
    | Except.error _ => s1
  | none => s1

/-- `MetricsMonitor._reader` (app.py:123-149): if the tegrastats executable
is absent (`shutil.which` fails and `/usr/bin/tegrastats` does not exist),
return before spawning anything, touching no state; otherwise process the
subprocess's lines in order. -/
def MetricsMonitor.readerRun (toolPresent : Bool) (lines : List (List Char))
    (s : MonState) : MonState :=
  if toolPresent then lines.foldl MetricsMonitor.processLine s else s

/-- `MetricsMonitor.latest` (app.py:165-176): non-blocking read of the slot
plus the last raw line; returns the result and the new monitor state. -/
def MetricsMonitor.latest (s : MonState) : (Option TelemetrySample × List Char) × MonState :=
  let r := MetricsMonitor.slotRead s.slot
  ((r.1, s.lastRaw), ⟨s.thread, r.2, s.lastRaw⟩)

/-! ## Rendering of metrics (InferenceLoop._render_metrics, app.py:255-273) -/

/-- Which of the three branches of `_render_metrics` runs: the metric
columns, the raw-line fallback, or the "Waiting for tegrastats..." caption. -/
inductive RenderChoice where
  | metricsView
  | rawView
  | waitingView
deriving DecidableEq

/-- The display decision of `_render_metrics` (app.py:263-273): parsed data
first, then a non-empty raw line, then the waiting placeholder. -/
def InferenceLoop.renderMetrics (data : Option TelemetrySample) (lastRaw : List Char) :
    RenderChoice :=
  match data with
  | some _ => RenderChoice.metricsView
  | none => if lastRaw = [] then RenderChoice.waitingView else RenderChoice.rawView

/-! ## The frame-processing loop (InferenceLoop.run, app.py:280-310) -/

/-- The throttle interval `1.0 / max(max_fps, 1)` (app.py:297). -/
def throttleInterval (maxFps : ℤ) : ℚ := 1 / ((max maxFps 1 : ℤ) : ℚ)

/-- What happened to one arriving frame: dropped by the throttle, or emitted
(inference runs exactly on emitted frames — `predict_annotated` sits in the
non-`continue` branch, app.py:302). -/
inductive FrameEvent where
  | discarded (t : ℚ)
  | emitted (t : ℚ)
deriving DecidableEq

/-- Whether the loop body reaches the `predict_annotated` call for this
frame. -/
def FrameEvent.invokesInference : FrameEvent → Bool
  | FrameEvent.discarded _ => false
  | FrameEvent.emitted _ => true

/-- The per-frame trace of `InferenceLoop.run` (app.py:291-302) over the
frames' arrival instants: `last_emit` starts at `0.0`; a frame arriving
within the throttle interval of the recorded `last_emit` is dropped by
`continue` before inference; otherwise `last_emit := now` and the frame is
emitted. -/
def InferenceLoop.runTrace (maxFps : ℤ) : ℚ → List ℚ → List FrameEvent
  | _, [] => []
  | lastEmit, now :: ts =>
    if now - lastEmit < throttleInterval maxFps then
      FrameEvent.discarded now :: InferenceLoop.runTrace maxFps lastEmit ts
    else
      FrameEvent.emitted now :: InferenceLoop.runTrace maxFps now ts

/-- Arrival instants of the emitted frames of a trace. -/
def emittedTimes (tr : List FrameEvent) : List ℚ :=
  tr.filterMap fun e =>
    match e with
    | FrameEvent.emitted t => some t
    | FrameEvent.discarded _ => none

/-- Arrival instants of the frames `InferenceLoop.run` emits. -/
def InferenceLoop.runEmits (maxFps : ℤ) (lastEmit : ℚ) (ts : List ℚ) : List ℚ :=
  emittedTimes (InferenceLoop.runTrace maxFps lastEmit ts)

/-- How many frames of a trace reach the `predict_annotated` call. -/
def inferenceCount (tr : List FrameEvent) : ℕ :=
  (tr.filter FrameEvent.invokesInference).length

/-- The float literal `1e-6` of app.py:307. -/
def microClamp : ℚ := 1 / 1000000

/-- The FPS reports of `InferenceLoop.run` (app.py:305-307) as a function of
the inference durations of the emitted frames, in order: `frame_count` is
incremented per emitted frame and a report `1.0 / max(dt, 1e-6)` is written
when it is divisible by 5.  Reports are returned as
(frame_count, reported value) pairs. -/
def InferenceLoop.fpsReports : ℕ → List ℚ → List (ℕ × ℚ)
  | _, [] => []
  | k, d :: ds =>
    if (k + 1) % 5 = 0 then
      (k + 1, 1 / max d microClamp) :: InferenceLoop.fpsReports (k + 1) ds
    else InferenceLoop.fpsReports (k + 1) ds

/-- Specification-side description of the reports, starting at frame count
`k`: exactly the frame counts divisible by 5 report, and the value reported
for the i-th duration is `1 / max d_i 1e-6` (so `1 / d_i` whenever the
duration is at least one microsecond). -/
def reportSpec (k : ℕ) (ds : List ℚ) : List (ℕ × ℚ) :=
  (List.range ds.length).filterMap fun i =>
    if (k + i + 1) % 5 = 0 then some (k + i + 1, 1 / max (ds.getD i 0) microClamp)
    else none

/-- `InferenceLoop.run` with the monitor state threaded through: every
emitted frame calls `self.metrics.latest()` (via `_render_metrics`,
app.py:310) and renders one `RenderChoice`; discarded frames render
nothing. -/
def InferenceLoop.runWithMetrics (maxFps : ℤ) :
    ℚ → MonState → List ℚ → List RenderChoice × MonState
  | _, ms, [] => ([], ms)
  | lastEmit, ms, now :: ts =>
    if now - lastEmit < throttleInterval maxFps then
      InferenceLoop.runWithMetrics maxFps lastEmit ms ts
    else
      let r := MetricsMonitor.latest ms
      let rest := InferenceLoop.runWithMetrics maxFps now r.2 ts
      (InferenceLoop.renderMetrics r.1.1 r.1.2 :: rest.1, rest.2)

/-! ## UDP source opening (VideoReceiver.open_udp_ffmpeg, app.py:29-33, 213-232) -/

/-- `FFMPEG_URL_BIND_ANY.format(port=port)` (app.py:29). -/
def FFMPEG_URL_BIND_ANY (port : ℕ) : String := "udp://@:" ++ toString port

/-- `FFMPEG_URL_BIND_ALL.format(port=port)` (app.py:30-33): the
bind-to-all-interfaces URL with buffering and timeout hints. -/
def FFMPEG_URL_BIND_ALL (port : ℕ) : String :=
  "udp://0.0.0.0:" ++ toString port
    ++ "?fifo_size=100000&overrun_nonfatal=1&buffer_size=0&timeout=500000"

/-- The ordered candidate list `open_udp_ffmpeg` works through. -/
def udpCandidates (port : ℕ) : List String :=
  [FFMPEG_URL_BIND_ANY port, FFMPEG_URL_BIND_ALL port]

/-- `VideoReceiver.open_udp_ffmpeg` (app.py:213-232), with the environment's
`cv2.VideoCapture(url, CAP_FFMPEG).isOpened()` behaviour abstracted as
`tryOpen`.  Returns the (handle?, url?) pair the Python code returns,
together with the list of URLs actually attempted, in order. -/
def VideoReceiver.openUdpFfmpeg {H : Type} (tryOpen : String → Option H) (port : ℕ) :
    (Option H × Option String) × List String :=
  match tryOpen (FFMPEG_URL_BIND_ANY port) with
  | some cap => ((some cap, some (FFMPEG_URL_BIND_ANY port)), [FFMPEG_URL_BIND_ANY port])
  | none =>
    match tryOpen (FFMPEG_URL_BIND_ALL port) with
    | some cap => ((some cap, some (FFMPEG_URL_BIND_ALL port)), udpCandidates port)
    | none => ((none, none), udpCandidates port)

/-! ## Release of the capture on the start path (main, app.py:404-471) -/

/-- `InferenceLoop.run` viewed through its exception behaviour: the loop
body has no handler around `predict_annotated`, so the first inference that
raises propagates out of `run`; if none raises the loop ends normally when
the source is exhausted. -/
def InferenceLoop.loopRunE : List (Except Unit Unit) → Except Unit Unit
  | [] => Except.ok ()
  | Except.ok _ :: rest => InferenceLoop.loopRunE rest
  | Except.error e :: _ => Except.error e

/-- The start-path sequence of `main` (e.g. app.py:409-410, 468-469):
`loop.run(cap, ...)` followed on the next line — with no `try`/`finally` —
by `cap.release()`.  Returns whether `cap.release()` executes. -/
def startPathReleases (inferResults : List (Except Unit Unit)) : Bool :=
  match InferenceLoop.loopRunE inferResults with
  | Except.ok _ => true
  | Except.error _ => false

/-- The stop-button path of the UDP route (app.py:473-478): a running
stored capture is released. -/
def stopPathReleases (udpRunning : Bool) (capOpen : Bool) : Bool :=
  if udpRunning then capOpen else false

/-! ## Theorems -/

/-- C9: the throttle interval computation `1.0 / max(max_fps, 1)` is total
over all integer `max_fps`: the denominator is at least 1 (so never zero,
including for zero and negative `max_fps`), any `max_fps` below 1 yields an
interval of one second (a cap of 1 frame per second), and for `max_fps ≥ 1`
the interval is exactly `1 / max_fps`. -/
theorem C9_throttle_total (m : ℤ) :
    ((max m 1 : ℤ) : ℚ) ≠ 0 ∧ (1 : ℤ) ≤ max m 1 ∧
    (m < 1 → throttleInterval m = 1) ∧
    (1 ≤ m → throttleInterval m = 1 / (m : ℚ)) := by
  have h1 : (1 : ℤ) ≤ max m 1 := le_max_right m 1
  refine ⟨?_, h1, ?_, ?_⟩
  · exact_mod_cast (by omega : (max m 1 : ℤ) ≠ 0)
  · intro hlt
    have : max m 1 = 1 := max_eq_right hlt.le
    simp [throttleInterval, this]
  · intro hge
    have : max m 1 = m := max_eq_left hge
    simp [throttleInterval, this]

/-- Witness for C9 at the concrete inputs 0 and 7. -/
theorem C9_witness : throttleInterval 0 = 1 ∧ throttleInterval 7 = 1 / (7 : ℚ) :=
  ⟨(C9_throttle_total 0).2.2.1 (by decide), (C9_throttle_total 7).2.2.2 (by decide)⟩

/-- C10: `open_udp_ffmpeg` always returns a consistent pair: for every port
and every environment, the (handle?, url?) result is either `(none, none)`
or has both components present. -/
theorem C10_open_udp_consistent {H : Type} (tryOpen : String → Option H) (port : ℕ) :
    (VideoReceiver.openUdpFfmpeg tryOpen port).1 = (none, none) ∨
    ∃ h u, (VideoReceiver.openUdpFfmpeg tryOpen port).1 = (some h, some u) := by
  unfold VideoReceiver.openUdpFfmpeg
  cases h1 : tryOpen (FFMPEG_URL_BIND_ANY port) with
  | some cap => exact Or.inr ⟨cap, FFMPEG_URL_BIND_ANY port, rfl⟩
  | none =>
    cases h2 : tryOpen (FFMPEG_URL_BIND_ALL port) with
    | some cap => exact Or.inr ⟨cap, FFMPEG_URL_BIND_ALL port, rfl⟩
    | none => exact Or.inl rfl

/-- C4: `open_udp_ffmpeg` works through the ordered candidate list for the
port — bind-to-any-address first, then bind-to-all-interfaces with the
buffering/timeout hints — and when the first K candidates fail and the
(K+1)th opens it returns the handle with exactly that candidate's URL,
attempting nothing after it (the attempted-URL trace is returned by the
model). -/
theorem C4_open_udp_ordered {H : Type} (tryOpen : String → Option H) (port : ℕ) :
    udpCandidates port = [FFMPEG_URL_BIND_ANY port, FFMPEG_URL_BIND_ALL port] ∧
    (∀ h, tryOpen (FFMPEG_URL_BIND_ANY port) = some h →
      VideoReceiver.openUdpFfmpeg tryOpen port
        = ((some h, some (FFMPEG_URL_BIND_ANY port)), [FFMPEG_URL_BIND_ANY port])) ∧
    (∀ h, tryOpen (FFMPEG_URL_BIND_ANY port) = none →
      tryOpen (FFMPEG_URL_BIND_ALL port) = some h →
      VideoReceiver.openUdpFfmpeg tryOpen port
        = ((some h, some (FFMPEG_URL_BIND_ALL port)), udpCandidates port)) ∧
    (tryOpen (FFMPEG_URL_BIND_ANY port) = none →
      tryOpen (FFMPEG_URL_BIND_ALL port) = none →
      VideoReceiver.openUdpFfmpeg tryOpen port = ((none, none), udpCandidates port)) := by
  refine ⟨rfl, ?_, ?_, ?_⟩
  · intro h h1; unfold VideoReceiver.openUdpFfmpeg; rw [h1]
  · intro h h1 h2; unfold VideoReceiver.openUdpFfmpeg; rw [h1, h2]
  · intro h1 h2; unfold VideoReceiver.openUdpFfmpeg; rw [h1, h2]

/-- Witness for C4: with an environment where the first candidate fails and
the second opens (handle 0), the result carries the second candidate's URL
and both attempts, in order. -/
theorem C4_witness :
    VideoReceiver.openUdpFfmpeg
        (fun s => if s = FFMPEG_URL_BIND_ANY 5000 then none else some (0 : ℕ)) 5000
      = ((some 0, some (FFMPEG_URL_BIND_ALL 5000)), udpCandidates 5000) :=
  (C4_open_udp_ordered (fun s => if s = FFMPEG_URL_BIND_ANY 5000 then none else some (0 : ℕ))
      5000).2.2.1 0 (by simp) (by decide)

/-- C2: the capacity-one freshness slot.  Writing S1 then S2 with no
intervening read always succeeds (the writer first evicts any unread value)
and leaves exactly S2; a read then returns S2 — S1 is unobservable — and
empties the slot; a second read with no intervening write returns no
sample. -/
theorem C2_freshness_slot {α : Type} (s : Option α) (S1 S2 : α) :
    MetricsMonitor.slotWrite s S1 = Except.ok (some S1) ∧
    MetricsMonitor.slotWrite (some S1) S2 = Except.ok (some S2) ∧
    MetricsMonitor.slotRead (some S2) = (some S2, none) ∧
    (S1 ≠ S2 → (MetricsMonitor.slotRead (some S2)).1 ≠ some S1) ∧
    (∀ v s', MetricsMonitor.slotRead s = (some v, s') →
      s' = none ∧ MetricsMonitor.slotRead s' = (none, none)) := by
  refine ⟨?_, rfl, rfl, ?_, ?_⟩
  · cases s <;> rfl
  · intro hne
    simpa [MetricsMonitor.slotRead, Queue.getNowait] using fun h => hne h.symm
  · intro v s' h
    cases s with
    | none => simp [MetricsMonitor.slotRead, Queue.getNowait] at h
    | some w =>
      simp [MetricsMonitor.slotRead, Queue.getNowait] at h
      exact ⟨h.2.symm, by simp [h.2.symm, MetricsMonitor.slotRead, Queue.getNowait]⟩

/-- Witness for C2 over natural-number samples 0 and 1. -/
theorem C2_witness :
    (MetricsMonitor.slotRead (some (1 : ℕ))).1 ≠ some 0 ∧
    MetricsMonitor.slotRead (none : Option ℕ) = (none, none) :=
  ⟨(@C2_freshness_slot ℕ none 0 1).2.2.2.1 (by decide),
   ((@C2_freshness_slot ℕ (some 1) 0 1).2.2.2.2 1 none rfl).2⟩

/-- C6: release behaviour of the capture on the start paths of `main`.  The
claim says the handle is released on every exit path, including an inference
exception mid-loop; in the code `cap.release()` merely follows `loop.run`
sequentially with no `try`/`finally`, so it runs on normal end-of-stream
(and the stop-button path releases the stored capture), but is skipped
whenever inference raises — the fourth conjunct exhibits the violation. -/
theorem C6_release_paths :
    startPathReleases [] = true ∧
    startPathReleases [Except.ok ()] = true ∧
    stopPathReleases true true = true ∧
    startPathReleases [Except.error ()] = false := by
  refine ⟨rfl, rfl, rfl, rfl⟩

/-- C7: `start()` is idempotent: with a live reader thread it is a no-op
(nothing launched, no state changed); otherwise it launches exactly one new
thread, touching neither the slot nor the raw line; a second `start()`
right after a launch is a no-op.  `start` itself is total — the tegrastats
lookup happens inside the spawned `_reader`, whose body a catch-all
protects. -/
theorem C7_start_idempotent (s : MonState) :
    (s.thread = some true → MetricsMonitor.start s = (s, false)) ∧
    (s.thread ≠ some true →
      (MetricsMonitor.start s).2 = true ∧
      (MetricsMonitor.start s).1.thread = some true ∧
      (MetricsMonitor.start s).1.slot = s.slot ∧
      (MetricsMonitor.start s).1.lastRaw = s.lastRaw) ∧
    MetricsMonitor.start (MetricsMonitor.start s).1 = ((MetricsMonitor.start s).1, false) := by
  refine ⟨?_, ?_, ?_⟩
  · intro h; simp [MetricsMonitor.start, h]
  · intro h; simp [MetricsMonitor.start, h]
  · by_cases h : s.thread = some true <;> simp [MetricsMonitor.start, h]

/-- Witness for C7 starting from a freshly constructed monitor. -/
theorem C7_witness :
    (MetricsMonitor.start MonState.init).2 = true ∧
    (MetricsMonitor.start MonState.init).1.thread = some true ∧
    (MetricsMonitor.start MonState.init).1.slot = MonState.init.slot ∧
    (MetricsMonitor.start MonState.init).1.lastRaw = MonState.init.lastRaw :=
  (C7_start_idempotent MonState.init).2.1 (by simp [MonState.init])

theorem reportSpec_cons (k : ℕ) (d : ℚ) (ds : List ℚ) :
    reportSpec k (d :: ds) =
      (if (k + 1) % 5 = 0 then [(k + 1, 1 / max d microClamp)] else [])
        ++ reportSpec (k + 1) ds := by
  unfold reportSpec
  rw [List.length_cons, List.range_succ_eq_map, List.filterMap_cons, List.filterMap_map]
  have hfs : ((fun i => if (k + i + 1) % 5 = 0
        then some (k + i + 1, 1 / max ((d :: ds).getD i 0) microClamp) else none) ∘ Nat.succ)
      = fun i => if (k + 1 + i + 1) % 5 = 0
        then some (k + 1 + i + 1, 1 / max (ds.getD i 0) microClamp) else none := by
    funext i
    have h2 : k + (i + 1) + 1 = k + 1 + i + 1 := by omega
    simp [Function.comp, Nat.succ_eq_add_one, h2]
  rw [hfs]
  by_cases hk : (k + 1) % 5 = 0
  · simp [hk]
  · simp [hk]

theorem fpsReports_eq_spec (ds : List ℚ) : ∀ k, InferenceLoop.fpsReports k ds = reportSpec k ds := by
  induction ds with
  | nil => intro k; simp [InferenceLoop.fpsReports, reportSpec]
  | cons d ds ih =>
    intro k
    rw [reportSpec_cons]
    by_cases hk : (k + 1) % 5 = 0
    · simp [InferenceLoop.fpsReports, hk, ih]
    · simp [InferenceLoop.fpsReports, hk, ih]

/-- C5 (amended): a throughput report is produced exactly on every 5th
emitted frame and on no other frame, and the value reported after the k-th
emitted frame is `1 / max(dk, 1e-6)` — which equals the claimed `1 / dk`
exactly when `dk ≥ 1e-6`.  (The claim as frozen, with value `1 / dk` for
all durations, fails: see the counterexample.) -/
theorem C5_throughput_reports (ds : List ℚ) :
    InferenceLoop.fpsReports 0 ds = reportSpec 0 ds ∧
    (∀ d : ℚ, microClamp ≤ d → 1 / max d microClamp = 1 / d) := by
  refine ⟨fpsReports_eq_spec ds 0, ?_⟩
  intro d hd
  rw [max_eq_left hd]

/-- Witness for C5 at five unit durations and duration 1. -/
theorem C5_witness :
    InferenceLoop.fpsReports 0 [1, 1, 1, 1, 1] = reportSpec 0 [1, 1, 1, 1, 1] ∧
    (1 : ℚ) / max 1 microClamp = 1 / 1 :=
  ⟨(C5_throughput_reports [1, 1, 1, 1, 1]).1,
   (C5_throughput_reports []).2 1 (by norm_num [microClamp])⟩

/-- C5 counterexample: with a 5th inference duration of `1e-7` seconds the
code reports `1 / max(1e-7, 1e-6) = 1e6`, not the claimed `1 / d5 = 1e7`. -/
theorem C5_counterexample :
    InferenceLoop.fpsReports 0 [1, 1, 1, 1, 1 / 10000000] = [(5, 1000000)] ∧
    (1 : ℚ) / (1 / 10000000) = 10000000 ∧ ((1000000 : ℚ) ≠ 10000000) := by
  have hmax : max ((1 : ℚ) / 10000000) microClamp = microClamp :=
    max_eq_right (by norm_num [microClamp])
  refine ⟨?_, by norm_num, by norm_num⟩
  simp [InferenceLoop.fpsReports, hmax, microClamp]
  norm_num

theorem runEmits_cons (m : ℤ) (le now : ℚ) (ts : List ℚ) :
    InferenceLoop.runEmits m le (now :: ts) =
      if now - le < throttleInterval m then InferenceLoop.runEmits m le ts
      else now :: InferenceLoop.runEmits m now ts := by
  by_cases h : now - le < throttleInterval m <;>
    simp [InferenceLoop.runEmits, InferenceLoop.runTrace, emittedTimes, h]

/-- C8: when tegrastats is absent the reader task exits without touching
any state, so from the initial monitor state `latest()` returns
`(None, "")` — and keeps returning it, since reading the empty slot leaves
the state fixed; that renders the waiting placeholder, and a whole loop run
against this monitor completes normally, rendering the placeholder on every
emitted frame and leaving the monitor state unchanged. -/
theorem C8_tool_absent (lines : List (List Char)) (m : ℤ) (le : ℚ) (ts : List ℚ) :
    MetricsMonitor.readerRun false lines MonState.init = MonState.init ∧
    MetricsMonitor.latest MonState.init = ((none, []), MonState.init) ∧
    InferenceLoop.renderMetrics none [] = RenderChoice.waitingView ∧
    InferenceLoop.runWithMetrics m le MonState.init ts =
      (List.replicate (InferenceLoop.runEmits m le ts).length RenderChoice.waitingView,
        MonState.init) := by
  refine ⟨rfl, rfl, rfl, ?_⟩
  induction ts generalizing le with
  | nil => rfl
  | cons now ts ih =>
    rw [runEmits_cons]
    by_cases h : now - le < throttleInterval m
    · simpa [InferenceLoop.runWithMetrics, h] using ih le
    · have hl : MetricsMonitor.latest MonState.init = ((none, []), MonState.init) := rfl
      simp [InferenceLoop.runWithMetrics, h, hl, InferenceLoop.renderMetrics,
        List.replicate_succ, ih now]

theorem runTrace_length (m : ℤ) (le : ℚ) (ts : List ℚ) :
    (InferenceLoop.runTrace m le ts).length = ts.length := by
  induction ts generalizing le with
  | nil => rfl
  | cons now ts ih =>
    by_cases h : now - le < throttleInterval m <;>
      simp [InferenceLoop.runTrace, h, ih]

theorem inferenceCount_eq (m : ℤ) (le : ℚ) (ts : List ℚ) :
    inferenceCount (InferenceLoop.runTrace m le ts)
      = (InferenceLoop.runEmits m le ts).length := by
  induction ts generalizing le with
  | nil => rfl
  | cons now ts ih =>
    have hih := ih le
    have hih2 := ih now
    simp only [inferenceCount, InferenceLoop.runEmits, emittedTimes] at hih hih2 ⊢
    by_cases h : now - le < throttleInterval m <;>
      simp [InferenceLoop.runTrace, h, List.filter_cons, List.filterMap_cons,
        FrameEvent.invokesInference, hih, hih2]

theorem runEmits_sublist (m : ℤ) (le : ℚ) (ts : List ℚ) :
    List.Sublist (InferenceLoop.runEmits m le ts) ts := by
  induction ts generalizing le with
  | nil => simp [InferenceLoop.runEmits, InferenceLoop.runTrace, emittedTimes]
  | cons now ts ih =>
    rw [runEmits_cons]
    by_cases h : now - le < throttleInterval m
    · rw [if_pos h]; exact (ih le).cons now
    · rw [if_neg h]; exact (ih now).cons₂ now

theorem throttleInterval_pos (m : ℤ) : 0 < throttleInterval m := by
  unfold throttleInterval
  have h1 : (1 : ℤ) ≤ max m 1 := le_max_right m 1
  have h2 : (0 : ℚ) < ((max m 1 : ℤ) : ℚ) := by exact_mod_cast (by omega : (0 : ℤ) < max m 1)
  exact one_div_pos.mpr h2

theorem runEmits_chain (m : ℤ) (le : ℚ) (ts : List ℚ) :
    List.Chain (fun u v => u + throttleInterval m ≤ v) le
      (InferenceLoop.runEmits m le ts) := by
  induction ts generalizing le with
  | nil => exact List.Chain.nil
  | cons now ts ih =>
    rw [runEmits_cons]
    by_cases h : now - le < throttleInterval m
    · rw [if_pos h]; exact ih le
    · rw [if_neg h]
      exact List.Chain.cons (by linarith [not_lt.mp h]) (ih now)

theorem chain_ge_of_mem (δ : ℚ) (_hδ : 0 ≤ δ) :
    ∀ (l : List ℚ) (x : ℚ), List.Chain (fun u v => u + δ ≤ v) x l →
      ∃ z, z ∈ x :: l ∧ x + l.length * δ ≤ z := by
  intro l
  induction l with
  | nil =>
    intro x _
    exact ⟨x, List.mem_singleton_self x, by simp⟩
  | cons y l ih =>
    intro x hc
    obtain ⟨hxy, hyl⟩ := List.chain_cons.mp hc
    obtain ⟨z, hz, hzb⟩ := ih y hyl
    refine ⟨z, List.mem_cons_of_mem x hz, ?_⟩
    have hlen : (((y :: l).length : ℕ) : ℚ) = (l.length : ℚ) + 1 := by
      push_cast [List.length_cons]; ring
    rw [hlen]
    have hexp : ((l.length : ℚ) + 1) * δ = (l.length : ℚ) * δ + δ := by ring
    linarith [hxy, hzb]

theorem chain_window_count (δ : ℚ) (hδ : 0 < δ) (x : ℚ) (E : List ℚ)
    (hc : List.Chain (fun u v => u + δ ≤ v) x E) (a : ℚ) :
    (((E.filter fun t => decide (a ≤ t ∧ t ≤ a + 1)).length : ℕ) : ℚ) ≤ 1 / δ + 1 := by
  letI : IsTrans ℚ (fun u v => u + δ ≤ v) :=
    ⟨fun p q r hpq hqr => by
      have h1 : p + δ ≤ q := hpq
      have h2 : q + δ ≤ r := hqr
      show p + δ ≤ r
      linarith⟩
  have hpw : (x :: E).Pairwise (fun u v => u + δ ≤ v) := List.chain_iff_pairwise.mp hc
  have hE : E.Pairwise (fun u v => u + δ ≤ v) := hpw.of_cons
  have hF : (E.filter fun t => decide (a ≤ t ∧ t ≤ a + 1)).Pairwise (fun u v => u + δ ≤ v) :=
    List.Pairwise.sublist (List.filter_sublist E) hE
  have hsub : ∀ z, z ∈ (E.filter fun t => decide (a ≤ t ∧ t ≤ a + 1)) → a ≤ z ∧ z ≤ a + 1 :=
    fun z hzmem => of_decide_eq_true (List.mem_filter.mp hzmem).2
  cases hFc : E.filter fun t => decide (a ≤ t ∧ t ≤ a + 1) with
  | nil =>
    simp only [hFc, List.length_nil, Nat.cast_zero]
    have : 0 < 1 / δ := one_div_pos.mpr hδ
    linarith
  | cons f0 rest =>
    have hch : List.Chain (fun u v => u + δ ≤ v) f0 rest :=
      List.chain_iff_pairwise.mpr (hFc ▸ hF)
    obtain ⟨z, hz, hzb⟩ := chain_ge_of_mem δ hδ.le rest f0 hch
    have hf0w : a ≤ f0 ∧ f0 ≤ a + 1 := hsub f0 (by rw [hFc]; exact List.mem_cons_self f0 rest)
    have hzw : a ≤ z ∧ z ≤ a + 1 := hsub z (by rw [hFc]; exact hz)
    have hlen : (rest.length : ℚ) * δ ≤ 1 := by linarith [hzb, hf0w.1, hzw.2]
    have hq : (rest.length : ℚ) ≤ 1 / δ := (le_div_iff₀ hδ).mpr hlen
    push_cast [List.length_cons]
    linarith

/-- C1: over any sequence of frame arrival instants, the loop's behaviour
matches the throttle contract: every arriving frame is processed exactly
once as either discarded or emitted; discarded frames never reach the
inference call (the inference-call count equals the emitted count); the
emitted frames are a subsequence of the arrivals whose successive instants
(starting from the recorded last-emission time) are at least
`1 / max(max_fps, 1)` apart; hence any closed window of one second contains
at most `max_fps + 1` emitted frames (the ±1 being boundary rounding). -/
theorem C1_rate_limiting (maxFps : ℤ) (hm : 1 ≤ maxFps) (lastEmit : ℚ) (ts : List ℚ) (a : ℚ) :
    (InferenceLoop.runTrace maxFps lastEmit ts).length = ts.length ∧
    (∀ t, FrameEvent.discarded t ∈ InferenceLoop.runTrace maxFps lastEmit ts →
      FrameEvent.invokesInference (FrameEvent.discarded t) = false) ∧
    inferenceCount (InferenceLoop.runTrace maxFps lastEmit ts)
      = (InferenceLoop.runEmits maxFps lastEmit ts).length ∧
    List.Sublist (InferenceLoop.runEmits maxFps lastEmit ts) ts ∧
    List.Chain (fun u v => u + throttleInterval maxFps ≤ v) lastEmit
      (InferenceLoop.runEmits maxFps lastEmit ts) ∧
    ((InferenceLoop.runEmits maxFps lastEmit ts).filter
      fun t => decide (a ≤ t ∧ t ≤ a + 1)).length ≤ maxFps.toNat + 1 := by
  refine ⟨runTrace_length maxFps lastEmit ts, fun t _ => rfl,
    inferenceCount_eq maxFps lastEmit ts, runEmits_sublist maxFps lastEmit ts,
    runEmits_chain maxFps lastEmit ts, ?_⟩
  have hδ := throttleInterval_pos maxFps
  have hq := chain_window_count (throttleInterval maxFps) hδ lastEmit
    (InferenceLoop.runEmits maxFps lastEmit ts) (runEmits_chain maxFps lastEmit ts) a
  have hone : 1 / throttleInterval maxFps = (maxFps : ℚ) := by
    rw [throttleInterval, max_eq_left hm, one_div_one_div]
  rw [hone] at hq
  have hz : ((((InferenceLoop.runEmits maxFps lastEmit ts).filter
      fun t => decide (a ≤ t ∧ t ≤ a + 1)).length : ℤ)) ≤ maxFps + 1 := by
    exact_mod_cast hq
  omega

/-- Witness for C1 at `max_fps = 2`, initial `last_emit = 0`, one frame
arriving at t = 1, window start 0. -/
theorem C1_witness :
    (InferenceLoop.runTrace 2 0 [1]).length = [(1 : ℚ)].length ∧
    (∀ t, FrameEvent.discarded t ∈ InferenceLoop.runTrace 2 0 [1] →
      FrameEvent.invokesInference (FrameEvent.discarded t) = false) ∧
    inferenceCount (InferenceLoop.runTrace 2 0 [1]) = (InferenceLoop.runEmits 2 0 [1]).length ∧
    List.Sublist (InferenceLoop.runEmits 2 0 [1]) [1] ∧
    List.Chain (fun u v => u + throttleInterval 2 ≤ v) 0 (InferenceLoop.runEmits 2 0 [1]) ∧
    ((InferenceLoop.runEmits 2 0 [1]).filter
      fun t => decide ((0 : ℚ) ≤ t ∧ t ≤ 0 + 1)).length ≤ (2 : ℤ).toNat + 1 :=
  C1_rate_limiting 2 (by decide) 0 [1] 0

theorem scanGap_some {α : Type} (f : List Char → Option α) :
    ∀ (s : List Char) (a : α), scanGap f s = some a → ∃ t, t <:+ s ∧ f t = some a := by
  intro s
  induction s with
  | nil =>
    intro a h
    simp only [scanGap] at h
    exact ⟨[], List.suffix_refl [], h⟩
  | cons c cs ih =>
    intro a h
    simp only [scanGap] at h
    cases hf : f (c :: cs) with
    | some r =>
      simp only [hf] at h
      exact ⟨c :: cs, List.suffix_refl _, by rw [hf, h]⟩
    | none =>
      simp only [hf] at h
      by_cases hnl : c = '\n'
      · rw [if_pos hnl] at h; exact absurd h (by simp)
      · rw [if_neg hnl] at h
        obtain ⟨t, ht, hft⟩ := ih a h
        exact ⟨t, ht.trans (List.suffix_cons c cs), hft⟩

theorem scanStart_some {α : Type} (f : List Char → Option α) :
    ∀ (s : List Char) (a : α), scanStart f s = some a → ∃ t, t <:+ s ∧ f t = some a := by
  intro s
  induction s with
  | nil =>
    intro a h
    simp only [scanStart] at h
    exact ⟨[], List.suffix_refl [], h⟩
  | cons c cs ih =>
    intro a h
    simp only [scanStart] at h
    cases hf : f (c :: cs) with
    | some r =>
      simp only [hf] at h
      exact ⟨c :: cs, List.suffix_refl _, by rw [hf, h]⟩
    | none =>
      simp only [hf] at h
      obtain ⟨t, ht, hft⟩ := ih a h
      exact ⟨t, ht.trans (List.suffix_cons c cs), hft⟩

theorem litMatch_decomp : ∀ (p s r : List Char), litMatch p s = some r →
    ∃ u, s = u ++ r ∧ u.map Char.toLower = p := by
  intro p
  induction p with
  | nil =>
    intro s r h
    simp only [litMatch, Option.some.injEq] at h
    exact ⟨[], by simp [h], rfl⟩
  | cons pc ps ih =>
    intro s r h
    cases s with
    | nil => simp [litMatch] at h
    | cons c cs =>
      simp only [litMatch] at h
      by_cases hc : c.toLower = pc
      · rw [if_pos hc] at h
        obtain ⟨u, hu, hmap⟩ := ih cs r h
        exact ⟨c :: u, by simp [hu], by simp [hmap, hc]⟩
      · rw [if_neg hc] at h; exact absurd h (by simp)

theorem litMatch_suffix (p s r : List Char) (h : litMatch p s = some r) : r <:+ s := by
  obtain ⟨u, hu, _⟩ := litMatch_decomp p s r h
  exact ⟨u, hu.symm⟩

theorem spaces1_suffix (s r : List Char) (h : spaces1 s = some r) : r <:+ s := by
  cases s with
  | nil => simp [spaces1] at h
  | cons c cs =>
    simp only [spaces1] at h
    split at h
    · have hr : cs.dropWhile isSpaceC = r := Option.some.inj h
      rw [← hr]
      exact (List.dropWhile_suffix isSpaceC).trans (List.suffix_cons c cs)
    · exact absurd h (by simp)

theorem digits1_inv (s g r : List Char) (h : digits1 s = some (g, r)) :
    g ≠ [] ∧ r <:+ s := by
  cases s with
  | nil => simp [digits1] at h
  | cons c cs =>
    simp only [digits1] at h
    split at h
    · rw [Option.some.injEq, Prod.mk.injEq] at h
      obtain ⟨hg, hr⟩ := h
      refine ⟨by rw [← hg]; simp, ?_⟩
      rw [← hr]
      exact (List.dropWhile_suffix isDigitC).trans (List.suffix_cons c cs)
    · exact absurd h (by simp)

theorem sepUS_suffix (s r : List Char) (h : sepUS s = some r) : r <:+ s := by
  cases s with
  | nil => simp [sepUS] at h
  | cons c cs =>
    simp only [sepUS] at h
    split at h
    · have hr : cs = r := Option.some.inj h
      rw [← hr]
      exact List.suffix_cons c cs
    · exact absurd h (by simp)

theorem tempGroup_inv (s g r : List Char) (h : tempGroup s = some (g, r)) :
    g ≠ [] ∧ r <:+ s := by
  cases s with
  | nil => simp [tempGroup] at h
  | cons c cs =>
    simp only [tempGroup] at h
    split at h
    · split at h
      · rename_i d rest heq
        split at h
        · rw [Option.some.injEq, Prod.mk.injEq] at h
          obtain ⟨hg, hr⟩ := h
          refine ⟨by rw [← hg]; simp, ?_⟩
          rw [← hr]
          have h1 : rest <:+ d :: rest := List.suffix_cons d rest
          have h2 : d :: rest <:+ cs := heq ▸ List.dropWhile_suffix isTempC
          exact (h1.trans h2).trans (List.suffix_cons c cs)
        · exact absurd h (by simp)
      · exact absurd h (by simp)
    · exact absurd h (by simp)

theorem anchoredAt_mono (p t l : List Char) (h : anchoredAt p t) (hs : t <:+ l) :
    anchoredAt p l := by
  obtain ⟨t', u, r, ht', hdec, hmap⟩ := h
  exact ⟨t', u, r, ht'.trans hs, hdec, hmap⟩

theorem anchoredAt_self (p u r s : List Char) (hu : s = u ++ r)
    (hmap : u.map Char.toLower = p) : anchoredAt p s :=
  ⟨s, u, r, List.suffix_refl s, hu, hmap⟩

theorem anchoredAt_lcInfix (p l : List Char) (h : anchoredAt p l) : lcInfix p l := by
  obtain ⟨t, u, r, ⟨v, hv⟩, hdec, hmap⟩ := h
  refine ⟨v.map Char.toLower, r.map Char.toLower, ?_⟩
  rw [← hv, hdec]
  simp [hmap, List.append_assoc]

theorem gpuAnchor_inv (s g : List Char) (h : gpuAnchor s = some g) :
    g ≠ [] ∧ anchoredAt gpuTok s := by
  simp only [gpuAnchor, Option.bind_eq_some, Option.map_eq_some'] at h
  obtain ⟨r1, h1, gr, h2, h3⟩ := h
  obtain ⟨u, hu, hmap⟩ := litMatch_decomp gpuTok s r1 h1
  obtain ⟨hg, _⟩ := tempGroup_inv r1 gr.1 gr.2 h2
  subst h3
  exact ⟨hg, anchoredAt_self gpuTok u r1 s hu hmap⟩

theorem gpuScan_inv (s g : List Char) (h : gpuScan s = some g) :
    g ≠ [] ∧ anchoredAt gpuTok s := by
  obtain ⟨t, ht, hf⟩ := scanGap_some gpuAnchor s g h
  obtain ⟨hg, hanch⟩ := gpuAnchor_inv t g hf
  exact ⟨hg, anchoredAt_mono gpuTok t s hanch ht⟩

theorem gr3dAnchor_inv (s : List Char) (x : List Char × List Char × List Char)
    (h : gr3dAnchor s = some x) :
    (x.1 ≠ [] ∧ x.2.1 ≠ [] ∧ x.2.2 ≠ []) ∧
    anchoredAt gr3dTok s ∧ anchoredAt freqTok s ∧ anchoredAt gpuTok s := by
  simp only [gr3dAnchor, Option.bind_eq_some, Option.map_eq_some'] at h
  obtain ⟨r1, h1, r2, h2, r3, h3, r4, h4, p5, h5, r6, h6, m7, h7, temp, h8, h9⟩ := h
  subst h9
  have s1 : r1 <:+ s := litMatch_suffix gr3dTok s r1 h1
  have s2 : r2 <:+ s := (sepUS_suffix r1 r2 h2).trans s1
  have s3 : r3 <:+ s := (litMatch_suffix freqTok r2 r3 h3).trans s2
  have s4 : r4 <:+ s := (spaces1_suffix r3 r4 h4).trans s3
  have s5 : p5.2 <:+ s := ((digits1_inv r4 p5.1 p5.2 h5).2).trans s4
  have s6 : r6 <:+ s := (litMatch_suffix ['%', '@'] p5.2 r6 h6).trans s5
  have s7 : m7.2 <:+ s := ((digits1_inv r6 m7.1 m7.2 h7).2).trans s6
  obtain ⟨hgne, hanchGpu⟩ := gpuScan_inv m7.2 temp h8
  obtain ⟨u, hu, hmap⟩ := litMatch_decomp gr3dTok s r1 h1
  obtain ⟨u2, hu2, hmap2⟩ := litMatch_decomp freqTok r2 r3 h3
  refine ⟨⟨(digits1_inv r4 p5.1 p5.2 h5).1, (digits1_inv r6 m7.1 m7.2 h7).1, hgne⟩,
    anchoredAt_self gr3dTok u r1 s hu hmap, ?_, anchoredAt_mono gpuTok m7.2 s hanchGpu s7⟩
  exact anchoredAt_mono freqTok r2 s (anchoredAt_self freqTok u2 r3 r2 hu2 hmap2) s2

theorem gr3dScan_inv (s : List Char) (x : List Char × List Char × List Char)
    (h : gr3dScan s = some x) :
    (x.1 ≠ [] ∧ x.2.1 ≠ [] ∧ x.2.2 ≠ []) ∧
    anchoredAt gr3dTok s ∧ anchoredAt freqTok s ∧ anchoredAt gpuTok s := by
  obtain ⟨t, ht, hf⟩ := scanGap_some gr3dAnchor s x h
  obtain ⟨hn, ha, hb, hc⟩ := gr3dAnchor_inv t x hf
  exact ⟨hn, anchoredAt_mono gr3dTok t s ha ht, anchoredAt_mono freqTok t s hb ht,
    anchoredAt_mono gpuTok t s hc ht⟩

theorem emcAnchor_inv (s : List Char) (tf : TailFields) (h : emcAnchor s = some tf) :
    (tf.emc_pct ≠ [] ∧ tf.emc_mhz ≠ [] ∧ tf.gr3d_pct ≠ [] ∧ tf.gr3d_mhz ≠ [] ∧
      tf.gpu_temp ≠ []) ∧
    anchoredAt emcTok s ∧ anchoredAt freqTok s ∧ anchoredAt gr3dTok s ∧
    anchoredAt gpuTok s := by
  simp only [emcAnchor, Option.bind_eq_some, Option.map_eq_some'] at h
  obtain ⟨r1, h1, r2, h2, r3, h3, r4, h4, p5, h5, r6, h6, m7, h7, g, h8, h9⟩ := h
  subst h9
  have s1 : r1 <:+ s := litMatch_suffix emcTok s r1 h1
  have s2 : r2 <:+ s := (sepUS_suffix r1 r2 h2).trans s1
  have s3 : r3 <:+ s := (litMatch_suffix freqTok r2 r3 h3).trans s2
  have s4 : r4 <:+ s := (spaces1_suffix r3 r4 h4).trans s3
  have s5 : p5.2 <:+ s := ((digits1_inv r4 p5.1 p5.2 h5).2).trans s4
  have s6 : r6 <:+ s := (litMatch_suffix ['%', '@'] p5.2 r6 h6).trans s5
  have s7 : m7.2 <:+ s := ((digits1_inv r6 m7.1 m7.2 h7).2).trans s6
  obtain ⟨hg, hgr3d, hfreq, hgpu⟩ := gr3dScan_inv m7.2 g h8
  obtain ⟨u, hu, hmap⟩ := litMatch_decomp emcTok s r1 h1
  exact ⟨⟨(digits1_inv r4 p5.1 p5.2 h5).1, (digits1_inv r6 m7.1 m7.2 h7).1,
      hg.1, hg.2.1, hg.2.2⟩,
    anchoredAt_self emcTok u r1 s hu hmap,
    anchoredAt_mono freqTok m7.2 s hfreq s7,
    anchoredAt_mono gr3dTok m7.2 s hgr3d s7,
    anchoredAt_mono gpuTok m7.2 s hgpu s7⟩

theorem emcScan_inv (s : List Char) (tf : TailFields) (h : emcScan s = some tf) :
    (tf.emc_pct ≠ [] ∧ tf.emc_mhz ≠ [] ∧ tf.gr3d_pct ≠ [] ∧ tf.gr3d_mhz ≠ [] ∧
      tf.gpu_temp ≠ []) ∧
    anchoredAt emcTok s ∧ anchoredAt freqTok s ∧ anchoredAt gr3dTok s ∧
    anchoredAt gpuTok s := by
  obtain ⟨t, ht, hf⟩ := scanGap_some emcAnchor s tf h
  obtain ⟨hn, ha, hb, hc, hd⟩ := emcAnchor_inv t tf hf
  exact ⟨hn, anchoredAt_mono emcTok t s ha ht, anchoredAt_mono freqTok t s hb ht,
    anchoredAt_mono gr3dTok t s hc ht, anchoredAt_mono gpuTok t s hd ht⟩

theorem cpuBody_inv : ∀ (s revAcc cpu : List Char) (tf : TailFields),
    cpuBody revAcc s = some (cpu, tf) →
    cpu ≠ [] ∧ ∃ t, t <:+ s ∧ emcScan t = some tf := by
  intro s
  induction s with
  | nil => intro revAcc cpu tf h; simp [cpuBody] at h
  | cons c cs ih =>
    intro revAcc cpu tf h
    simp only [cpuBody] at h
    split at h
    · exact absurd h (by simp)
    · split at h
      · rename_i rest
        split at h
        · rename_i tf' hemc
          rw [Option.some.injEq, Prod.mk.injEq] at h
          obtain ⟨hcpu, htf⟩ := h
          subst htf
          refine ⟨by rw [← hcpu]; simp, rest, ?_, hemc⟩
          exact (List.suffix_cons ']' rest).trans (List.suffix_cons c (']' :: rest))
        · obtain ⟨hne, t, ht, hscan⟩ := ih (c :: revAcc) cpu tf h
          exact ⟨hne, t, ht.trans (List.suffix_cons c (']' :: rest)), hscan⟩
      · obtain ⟨hne, t, ht, hscan⟩ := ih (c :: revAcc) cpu tf h
        exact ⟨hne, t, ht.trans (List.suffix_cons c cs), hscan⟩

theorem cpuAnchor_inv (s cpu : List Char) (tf : TailFields)
    (h : cpuAnchor s = some (cpu, tf)) :
    cpu ≠ [] ∧ anchoredAt cpuTok s ∧ ∃ t, t <:+ s ∧ emcScan t = some tf := by
  simp only [cpuAnchor, Option.bind_eq_some] at h
  obtain ⟨r1, h1, r2, h2, r3, h3, h4⟩ := h
  have s1 : r1 <:+ s := litMatch_suffix cpuTok s r1 h1
  have s2 : r2 <:+ s := (spaces1_suffix r1 r2 h2).trans s1
  have s3 : r3 <:+ s := (litMatch_suffix ['['] r2 r3 h3).trans s2
  obtain ⟨u, hu, hmap⟩ := litMatch_decomp cpuTok s r1 h1
  obtain ⟨hne, t, ht, hscan⟩ := cpuBody_inv r3 [] cpu tf h4
  exact ⟨hne, anchoredAt_self cpuTok u r1 s hu hmap, t, ht.trans s3, hscan⟩

theorem cpuScan_inv (s cpu : List Char) (tf : TailFields)
    (h : cpuScan s = some (cpu, tf)) :
    cpu ≠ [] ∧ anchoredAt cpuTok s ∧ ∃ t, t <:+ s ∧ emcScan t = some tf := by
  obtain ⟨t0, ht0, hf⟩ := scanGap_some cpuAnchor s (cpu, tf) h
  obtain ⟨hne, hanch, t, ht, hscan⟩ := cpuAnchor_inv t0 cpu tf hf
  exact ⟨hne, anchoredAt_mono cpuTok t0 s hanch ht0, t, ht.trans ht0, hscan⟩

theorem tegraSearch_inv (l : List Char) (smp : TelemetrySample)
    (h : tegraSearch l = some smp) :
    populatedSample smp ∧
    (lcInfix ramTok l ∧ lcInfix cpuTok l ∧ lcInfix emcTok l ∧ lcInfix freqTok l ∧
      lcInfix gr3dTok l ∧ lcInfix gpuTok l) := by
  obtain ⟨t0, ht0, hram⟩ := scanStart_some ramAnchor l smp h
  simp only [ramAnchor, Option.bind_eq_some, Option.map_eq_some'] at hram
  obtain ⟨r1, h1, r2, h2, u3, h3, r4, h4, t5, h5, r6, h6, ct, h7, h8⟩ := hram
  subst h8
  have s1 : r1 <:+ t0 := litMatch_suffix ramTok t0 r1 h1
  have s2 : r2 <:+ t0 := (spaces1_suffix r1 r2 h2).trans s1
  have s3 : u3.2 <:+ t0 := ((digits1_inv r2 u3.1 u3.2 h3).2).trans s2
  have s4 : r4 <:+ t0 := (litMatch_suffix ['/'] u3.2 r4 h4).trans s3
  have s5 : t5.2 <:+ t0 := ((digits1_inv r4 t5.1 t5.2 h5).2).trans s4
  have s6 : r6 <:+ t0 := (litMatch_suffix ['m', 'b'] t5.2 r6 h6).trans s5
  obtain ⟨hcne, hcpuAnch, t, ht, hemc⟩ := cpuScan_inv r6 ct.1 ct.2 h7
  obtain ⟨⟨f1, f2, f3, f4, f5⟩, hEmcA, hFreqA, hGr3dA, hGpuA⟩ := emcScan_inv t ct.2 hemc
  have hr6l : r6 <:+ l := s6.trans ht0
  have htl : t <:+ l := (ht.trans s6).trans ht0
  have hramL : lcInfix ramTok l := by
    obtain ⟨u, hu, hmap⟩ := litMatch_decomp ramTok t0 r1 h1
    exact anchoredAt_lcInfix ramTok l
      (anchoredAt_mono ramTok t0 l (anchoredAt_self ramTok u r1 t0 hu hmap) ht0)
  refine ⟨⟨(digits1_inv r2 u3.1 u3.2 h3).1, (digits1_inv r4 t5.1 t5.2 h5).1,
      hcne, f1, f2, f3, f4, f5⟩,
    hramL,
    anchoredAt_lcInfix cpuTok l (anchoredAt_mono cpuTok r6 l hcpuAnch hr6l),
    anchoredAt_lcInfix emcTok l (anchoredAt_mono emcTok t l hEmcA htl),
    anchoredAt_lcInfix freqTok l (anchoredAt_mono freqTok t l hFreqA htl),
    anchoredAt_lcInfix gr3dTok l (anchoredAt_mono gr3dTok t l hGr3dA htl),
    anchoredAt_lcInfix gpuTok l (anchoredAt_mono gpuTok t l hGpuA htl)⟩

set_option maxRecDepth 10000 in
/-- C3: the telemetry line parser is all-or-nothing.  Whenever the pattern
matches, every one of the six field-groups is populated (all captured
strings non-empty) — never a partial sample; a successful match moreover
requires each group's anchor (`RAM`, `CPU`, `EMC`, `FREQ`, `GR3D`, `GPU@`,
case-insensitively) to occur in the line, so a line missing even one
required group yields no match; and concrete well-formed lines in all four
spacing variants around the EMC/GR3D labels (underscore or space) match
with all fields extracted, while a line whose GR3D group is missing yields
no match. -/
theorem C3_parser_all_or_nothing :
    (∀ l smp, tegraSearch l = some smp → populatedSample smp) ∧
    (∀ l smp, tegraSearch l = some smp →
      lcInfix ramTok l ∧ lcInfix cpuTok l ∧ lcInfix emcTok l ∧ lcInfix freqTok l ∧
      lcInfix gr3dTok l ∧ lcInfix gpuTok l) ∧
    (∀ l, (¬ lcInfix ramTok l ∨ ¬ lcInfix cpuTok l ∨ ¬ lcInfix emcTok l ∨
      ¬ lcInfix freqTok l ∨ ¬ lcInfix gr3dTok l ∨ ¬ lcInfix gpuTok l) →
      tegraSearch l = none) ∧
    tegraSearch (tLine '_' '_') = some tSample ∧
    tegraSearch (tLine '_' ' ') = some tSample ∧
    tegraSearch (tLine ' ' '_') = some tSample ∧
    tegraSearch (tLine ' ' ' ') = some tSample ∧
    tegraSearch tLineNoGr3d = none := by
  refine ⟨fun l smp h => (tegraSearch_inv l smp h).1,
    fun l smp h => (tegraSearch_inv l smp h).2, ?_,
    by decide, by decide, by decide, by decide, by decide⟩
  intro l hmiss
  cases hsearch : tegraSearch l with
  | none => rfl
  | some smp =>
    have hanch := (tegraSearch_inv l smp hsearch).2
    rcases hmiss with hm | hm | hm | hm | hm | hm <;> exact absurd (by tauto) hm

/-- Witness for C3: the concrete underscore-variant line matches, and by
the theorem its sample is fully populated and all six anchors occur in the
line. -/
theorem C3_witness :
    populatedSample tSample ∧
    (lcInfix ramTok (tLine '_' '_') ∧ lcInfix cpuTok (tLine '_' '_') ∧
      lcInfix emcTok (tLine '_' '_') ∧ lcInfix freqTok (tLine '_' '_') ∧
      lcInfix gr3dTok (tLine '_' '_') ∧ lcInfix gpuTok (tLine '_' '_')) :=
  ⟨C3_parser_all_or_nothing.1 (tLine '_' '_') tSample C3_parser_all_or_nothing.2.2.2.1,
   C3_parser_all_or_nothing.2.1 (tLine '_' '_') tSample C3_parser_all_or_nothing.2.2.2.1⟩
